import Mathlib

set_option maxRecDepth 100000

/-!
Verification of the Pagasa-WebScraper table-reconstruction and heuristic
field-inference engine against its natural-language specification.

The Python sources are shallowly embedded: strings are lists of characters,
floats become rationals, Python dicts become insertion-ordered association
lists, and fallible operations return Option.  External library behaviour
(Unicode NFKC normalization, datetime.strptime) is abstracted as function
parameters, so theorems about code paths that do not depend on it hold for
every instantiation.
-/

/-- Characters that the Python regex class matches for whitespace
(ASCII range; the bulletins handled by the scraper are ASCII). -/
def isWs (c : Char) : Bool :=
  c = ' ' || c = '\t' || c = '\n' || c = '\r' || c = '\x0b' || c = '\x0c'

/-- Python str.lower, restricted to the ASCII case mapping. -/
def pyLower (l : List Char) : List Char := l.map Char.toLower

/-- Python str.strip with no argument: remove leading and trailing whitespace. -/
def pyStrip (l : List Char) : List Char :=
  ((l.dropWhile isWs).reverse.dropWhile isWs).reverse

/-- Helper for collapseWs: the Bool records whether the previous emitted
character position was within a whitespace run. -/
def collapseWsAux : Bool → List Char → List Char
  | _, [] => []
  | inRun, c :: t =>
    if isWs c then
      if inRun then collapseWsAux true t else ' ' :: collapseWsAux true t
    else c :: collapseWsAux false t

/-- Python re.sub of one-or-more whitespace by a single space: every maximal
whitespace run is replaced by one space character. -/
def collapseWs (l : List Char) : List Char := collapseWsAux false l

/-- Does l start with p (Python str.startswith)? -/
def startsWithL : List Char → List Char → Bool
  | _, [] => true
  | [], _ :: _ => false
  | a :: l, b :: p => a = b && startsWithL l p

/-- Python substring containment: the operator testing p in l. -/
def containsSub : List Char → List Char → Bool
  | l, p =>
    startsWithL l p ||
      match l with
      | [] => false
      | _ :: t => containsSub t p

/-- JSON-like values as produced by the parser (Python dicts are
insertion-ordered association lists). -/
inductive JVal where
  | jnull : JVal
  | jbool : Bool → JVal
  | jnum : ℚ → JVal
  | jstr : String → JVal
  | jarr : List JVal → JVal
  | jobj : List (String × JVal) → JVal

mutual

/-- TableParser._strip_confidence: recursively removes entries whose key is
"confidence" from nested dicts, maps over lists, and leaves leaves alone. -/
def stripConfidence : JVal → JVal
  | .jnull => .jnull
  | .jbool b => .jbool b
  | .jnum q => .jnum q
  | .jstr s => .jstr s
  | .jarr xs => .jarr (stripConfidenceList xs)
  | .jobj kvs => .jobj (stripConfidenceKVs kvs)

def stripConfidenceList : List JVal → List JVal
  | [] => []
  | x :: t => stripConfidence x :: stripConfidenceList t

def stripConfidenceKVs : List (String × JVal) → List (String × JVal)
  | [] => []
  | (k, v) :: t =>
    if k = "confidence" then stripConfidenceKVs t
    else (k, stripConfidence v) :: stripConfidenceKVs t

end

mutual

/-- No dict anywhere inside the value carries a "confidence" key. -/
def noConfKey : JVal → Bool
  | .jnull => true
  | .jbool _ => true
  | .jnum _ => true
  | .jstr _ => true
  | .jarr xs => noConfKeyList xs
  | .jobj kvs => noConfKeyKVs kvs

def noConfKeyList : List JVal → Bool
  | [] => true
  | x :: t => noConfKey x && noConfKeyList t

def noConfKeyKVs : List (String × JVal) → Bool
  | [] => true
  | (k, v) :: t => decide (k ≠ "confidence") && noConfKey v && noConfKeyKVs t

end

mutual

theorem noConfKey_strip : ∀ j : JVal, noConfKey (stripConfidence j) = true
  | .jnull => rfl
  | .jbool _ => rfl
  | .jnum _ => rfl
  | .jstr _ => rfl
  | .jarr xs => noConfKeyList_strip xs
  | .jobj kvs => noConfKeyKVs_strip kvs

theorem noConfKeyList_strip : ∀ l : List JVal,
    noConfKeyList (stripConfidenceList l) = true
  | [] => rfl
  | x :: t => by
    simp only [stripConfidenceList, noConfKeyList, Bool.and_eq_true]
    exact ⟨noConfKey_strip x, noConfKeyList_strip t⟩

theorem noConfKeyKVs_strip : ∀ l : List (String × JVal),
    noConfKeyKVs (stripConfidenceKVs l) = true
  | [] => rfl
  | (k, v) :: t => by
    by_cases hk : k = "confidence"
    · simp only [stripConfidenceKVs, hk, if_pos rfl]
      exact noConfKeyKVs_strip t
    · simp only [stripConfidenceKVs, if_neg hk, noConfKeyKVs, Bool.and_eq_true,
        decide_eq_true_eq]
      exact ⟨⟨hk, noConfKey_strip v⟩, noConfKeyKVs_strip t⟩

end

/-- The example dict from the spec: a field f holding a value/confidence pair. -/
def exampleFieldDict : JVal :=
  .jobj [("f", .jobj [("value", .jstr "x"), ("confidence", .jnum (9/10))])]

/-- C1 counterexample: on the spec example the transform keeps the value
wrapper dict, so it does not collapse the pair to the bare value. -/
theorem c1_counterexample :
    stripConfidence exampleFieldDict = .jobj [("f", .jobj [("value", .jstr "x")])] ∧
    stripConfidence exampleFieldDict ≠ .jobj [("f", .jstr "x")] := by
  constructor
  · rfl
  · intro h
    rw [show stripConfidence exampleFieldDict
        = .jobj [("f", .jobj [("value", .jstr "x")])] from rfl] at h
    injection h with h1
    injection h1 with h2 h3
    injection h2 with h4 h5
    exact JVal.noConfusion h5

/-- Length of the longest common prefix of two character lists. -/
def lcp : List Char → List Char → Nat
  | a :: as, b :: bs => if a = b then lcp as bs + 1 else 0
  | _, _ => 0

theorem lcp_le_left : ∀ x y : List Char, lcp x y ≤ x.length
  | [], _ => Nat.le_refl 0
  | _ :: _, [] => Nat.zero_le _
  | a :: as, b :: bs => by
    simp only [lcp, List.length_cons]
    split
    · exact Nat.succ_le_succ (lcp_le_left as bs)
    · exact Nat.zero_le _

theorem lcp_le_right : ∀ x y : List Char, lcp x y ≤ y.length
  | [], _ => Nat.zero_le _
  | _ :: _, [] => Nat.le_refl 0
  | a :: as, b :: bs => by
    simp only [lcp, List.length_cons]
    split
    · exact Nat.succ_le_succ (lcp_le_right as bs)
    · exact Nat.zero_le _

theorem take_lcp_eq : ∀ x y : List Char, x.take (lcp x y) = y.take (lcp x y)
  | [], _ => by simp [lcp]
  | _ :: _, [] => by simp [lcp]
  | a :: as, b :: bs => by
    simp only [lcp]
    split
    · next h => simp [List.take_succ_cons, h, take_lcp_eq as bs]
    · simp

/-- Model of difflib SequenceMatcher find_longest_match with no junk (the
documented behaviour for short header strings): among all matching blocks
(i, j, k) with a.drop i and b.drop j sharing a common prefix of length k,
pick a maximal k, breaking ties by the smallest i and then the smallest j.
Returned as (i, j, k). -/
def bestMatch (a b : List Char) : Nat × Nat × Nat :=
  (List.range (a.length + 1)).foldl
    (fun best i =>
      (List.range (b.length + 1)).foldl
        (fun best j =>
          let k := lcp (a.drop i) (b.drop j)
          if best.2.2 < k then (i, j, k) else best)
        best)
    (0, 0, 0)

/-- Invariant carried through the bestMatch fold: the candidate block lies
inside both strings and its two slices agree. -/
abbrev bmInv (a b : List Char) (best : Nat × Nat × Nat) : Prop :=
  best.1 + best.2.2 ≤ a.length ∧ best.2.1 + best.2.2 ≤ b.length ∧
    (a.drop best.1).take best.2.2 = (b.drop best.2.1).take best.2.2

theorem bestMatch_spec (a b : List Char) : bmInv a b (bestMatch a b) := by
  unfold bestMatch
  refine List.foldlRecOn _ _ _ ?_ ?_
  · exact ⟨Nat.zero_le _, Nat.zero_le _, by simp⟩
  · intro acc hacc i hi
    refine List.foldlRecOn _ _ _ hacc ?_
    intro acc2 hacc2 j hj
    dsimp only
    split
    · have hi2 : i ≤ a.length := by
        have := List.mem_range.mp hi; omega
      have hj2 : j ≤ b.length := by
        have := List.mem_range.mp hj; omega
      have hlcpa := lcp_le_left (a.drop i) (b.drop j)
      have hlcpb := lcp_le_right (a.drop i) (b.drop j)
      simp only [List.length_drop] at hlcpa hlcpb
      refine ⟨?_, ?_, ?_⟩
      · show i + lcp (a.drop i) (b.drop j) ≤ a.length
        omega
      · show j + lcp (a.drop i) (b.drop j) ≤ b.length
        omega
      · exact take_lcp_eq _ _
    · exact hacc2

/-- Model of the total size of the matching blocks found by difflib
SequenceMatcher get_matching_blocks: take the best block, then recurse on the
pieces to its left and to its right.  The fuel argument bounds the recursion
depth; a.length + b.length is always sufficient. -/
def matchesTotal : Nat → List Char → List Char → Nat
  | 0, _, _ => 0
  | fuel + 1, a, b =>
    let m := bestMatch a b
    if m.2.2 = 0 then 0
    else
      matchesTotal fuel (a.take m.1) (b.take m.2.1) + m.2.2 +
        matchesTotal fuel (a.drop (m.1 + m.2.2)) (b.drop (m.2.1 + m.2.2))

theorem matchesTotal_le :
    ∀ (fuel : Nat) (a b : List Char),
      matchesTotal fuel a b ≤ min a.length b.length := by
  intro fuel
  induction fuel with
  | zero => intro a b; exact Nat.zero_le _
  | succ n ih =>
    intro a b
    obtain ⟨h1, h2, -⟩ := bestMatch_spec a b
    show (if (bestMatch a b).2.2 = 0 then 0 else _) ≤ _
    split
    · exact Nat.zero_le _
    · have hl := ih (a.take (bestMatch a b).1) (b.take (bestMatch a b).2.1)
      have hr := ih (a.drop ((bestMatch a b).1 + (bestMatch a b).2.2))
        (b.drop ((bestMatch a b).2.1 + (bestMatch a b).2.2))
      simp only [List.length_take, List.length_drop] at hl hr
      omega

theorem matchesTotal_full_eq :
    ∀ (fuel : Nat) (a b : List Char),
      matchesTotal fuel a b = a.length → matchesTotal fuel a b = b.length →
      a = b := by
  intro fuel
  induction fuel with
  | zero =>
    intro a b h1 h2
    simp only [matchesTotal] at h1 h2
    rw [List.length_eq_zero.mp h1.symm, List.length_eq_zero.mp h2.symm]
  | succ n ih =>
    intro a b h1 h2
    obtain ⟨hb1, hb2, hb3⟩ := bestMatch_spec a b
    revert h1 h2
    show (if (bestMatch a b).2.2 = 0 then 0 else _) = _ →
      (if (bestMatch a b).2.2 = 0 then 0 else _) = _ → _
    split
    · intro h1 h2
      rw [List.length_eq_zero.mp h1.symm, List.length_eq_zero.mp h2.symm]
    · intro h1 h2
      set i := (bestMatch a b).1 with hidef
      set j := (bestMatch a b).2.1 with hjdef
      set k := (bestMatch a b).2.2 with hkdef
      have hml := matchesTotal_le n (a.take i) (b.take j)
      have hmr := matchesTotal_le n (a.drop (i + k)) (b.drop (j + k))
      simp only [List.length_take, List.length_drop] at hml hmr
      have hMl : matchesTotal n (a.take i) (b.take j) = i ∧
          matchesTotal n (a.take i) (b.take j) = j ∧
          matchesTotal n (a.drop (i + k)) (b.drop (j + k)) = a.length - (i + k) ∧
          matchesTotal n (a.drop (i + k)) (b.drop (j + k)) = b.length - (j + k) := by
        omega
      have hleft : a.take i = b.take j := by
        apply ih
        · rw [List.length_take]; omega
        · rw [List.length_take]; omega
      have hright : a.drop (i + k) = b.drop (j + k) := by
        apply ih
        · rw [List.length_drop]; omega
        · rw [List.length_drop]; omega
      have ha : a = a.take i ++ ((a.drop i).take k ++ a.drop (i + k)) := by
        rw [← List.drop_drop, List.take_append_drop, List.take_append_drop]
      have hbfull : b = b.take j ++ ((b.drop j).take k ++ b.drop (j + k)) := by
        rw [← List.drop_drop, List.take_append_drop, List.take_append_drop]
      rw [ha, hbfull, hleft, hb3, hright]

/-- Model of difflib SequenceMatcher(None, a, b).ratio():
2 * M / (len(a) + len(b)), and 1.0 when both strings are empty.
The autojunk pruning of popular characters, which only triggers when the
second string has at least 200 characters, is not modelled: header aliases
are far shorter. -/
def seqRatio (a b : List Char) : ℚ :=
  if a.length + b.length = 0 then 1
  else 2 * (matchesTotal (a.length + b.length) a b : ℚ) / (a.length + b.length)

theorem seqRatio_eq_one {a b : List Char} (h : seqRatio a b = 1) : a = b := by
  unfold seqRatio at h
  split at h
  · next h0 =>
    rw [List.length_eq_zero.mp (by omega : a.length = 0),
      List.length_eq_zero.mp (by omega : b.length = 0)]
  · next h0 =>
    have hT : ((a.length : ℚ) + (b.length : ℚ)) ≠ 0 := by
      exact_mod_cast h0
    rw [div_eq_one_iff_eq hT] at h
    have h2 : 2 * matchesTotal (a.length + b.length) a b = a.length + b.length := by
      exact_mod_cast h
    have hle := matchesTotal_le (a.length + b.length) a b
    have hfa : matchesTotal (a.length + b.length) a b = a.length := by omega
    have hfb : matchesTotal (a.length + b.length) a b = b.length := by omega
    exact matchesTotal_full_eq _ a b hfa hfb

/-- HeaderMatcher.normalize: NFKC-normalize, collapse whitespace runs to one
space, strip, lowercase; the empty string is returned unchanged.  Unicode
NFKC normalization is external library behaviour and is passed in as the
function parameter nfkc (it is the identity on the ASCII header strings the
scraper handles). -/
def hmNormalize (nfkc : List Char → List Char) (l : List Char) : List Char :=
  if l = [] then [] else pyLower (pyStrip (collapseWs (nfkc l)))

/-- The per-alias loop of HeaderMatcher.match, with its early returns: exact
normalized equality gives 1.0, a prefix gives 0.9, substring containment in
either direction gives 0.8 scaled by the length ratio, and otherwise the
best fuzzy ratio is kept; at the end the best ratio is returned when it
exceeds 0.6, else 0.0. -/
def hmMatchGo (nt : List Char) : List (List Char) → ℚ → ℚ
  | [], best => if 3/5 < best then best else 0
  | na :: rest, best =>
    if nt = na then 1
    else if startsWithL nt na then 9/10
    else if containsSub nt na || containsSub na nt then
      (4/5) * ((min na.length nt.length : ℚ) / (max na.length nt.length : ℚ))
    else hmMatchGo nt rest (max best (seqRatio nt na))

/-- HeaderMatcher.match: confidence score between 0.0 and 1.0 for a text
against a list of aliases. -/
def hmMatch (nfkc : List Char → List Char) (text : List Char)
    (aliases : List (List Char)) : ℚ :=
  hmMatchGo (hmNormalize nfkc text) (aliases.map (hmNormalize nfkc)) 0

theorem containsSub_of_startsWith {l p : List Char}
    (h : startsWithL l p = true) : containsSub l p = true := by
  cases l with
  | nil => simp only [containsSub, h, Bool.true_or]
  | cons c t => simp only [containsSub, h, Bool.true_or]

/-- C5: HeaderMatcher.match against a single alias returns 1.0 exactly when
the normalized text and normalized alias are equal; and it returns 0.0
whenever they are unequal, neither normalized string occurs inside the
other, and the fuzzy similarity ratio is at most 0.6.  The theorem holds for
every model nfkc of Unicode NFKC normalization. -/
theorem c5_header_match (nfkc : List Char → List Char) (text als : List Char) :
    (hmMatch nfkc text [als] = 1 ↔
      hmNormalize nfkc text = hmNormalize nfkc als) ∧
    (hmNormalize nfkc text ≠ hmNormalize nfkc als →
      containsSub (hmNormalize nfkc text) (hmNormalize nfkc als) = false →
      containsSub (hmNormalize nfkc als) (hmNormalize nfkc text) = false →
      seqRatio (hmNormalize nfkc text) (hmNormalize nfkc als) ≤ 3/5 →
      hmMatch nfkc text [als] = 0) := by
  set nt := hmNormalize nfkc text with hnt
  set na := hmNormalize nfkc als with hna
  have hexp : hmMatch nfkc text [als] = hmMatchGo nt [na] 0 := rfl
  constructor
  · constructor
    · intro h1
      by_cases heq : nt = na
      · exact heq
      · exfalso
        rw [hexp] at h1
        simp only [hmMatchGo, if_neg heq] at h1
        by_cases hsw : startsWithL nt na
        · rw [if_pos hsw] at h1
          norm_num at h1
        · rw [if_neg hsw] at h1
          by_cases hcs : (containsSub nt na || containsSub na nt) = true
          · rw [if_pos hcs] at h1
            have hmaxpos : 0 < max na.length nt.length := by
              rcases Nat.eq_zero_or_pos (max na.length nt.length) with h0 | h0
              · exfalso
                apply heq
                rw [List.length_eq_zero.mp (by omega : nt.length = 0),
                  List.length_eq_zero.mp (by omega : na.length = 0)]
              · exact h0
            have hfrac : ((min na.length nt.length : ℚ) /
                (max na.length nt.length : ℚ)) ≤ 1 := by
              rw [div_le_one (by exact_mod_cast hmaxpos)]
              exact_mod_cast min_le_max
            have : (4/5 : ℚ) * ((min na.length nt.length : ℚ) /
                (max na.length nt.length : ℚ)) ≤ 4/5 :=
              mul_le_of_le_one_right (by norm_num) hfrac
            rw [h1] at this
            norm_num at this
          · rw [if_neg hcs] at h1
            split at h1
            · have hr1 : seqRatio nt na = 1 := by
                rcases max_cases (0 : ℚ) (seqRatio nt na) with ⟨he, -⟩ | ⟨he, -⟩ <;>
                  rw [he] at h1
                · norm_num at h1
                · exact h1
              exact heq (seqRatio_eq_one hr1)
            · norm_num at h1
    · intro heq
      rw [hexp]
      simp only [hmMatchGo, if_pos heq]
  · intro hne hc1 hc2 hr
    rw [hexp]
    have hsw : startsWithL nt na = false := by
      cases h : startsWithL nt na with
      | false => rfl
      | true =>
        rw [containsSub_of_startsWith h] at hc1
        exact Bool.noConfusion hc1
    simp only [hmMatchGo, if_neg hne, hsw, hc1, hc2, Bool.or_self, Bool.false_eq_true,
      if_false]
    have hb : max (0 : ℚ) (seqRatio nt na) ≤ 3/5 :=
      max_le (by norm_num) hr
    rw [if_neg (not_lt.mpr hb)]

theorem seqRatio_of_no_matches {a b : List Char}
    (h0 : a.length + b.length ≠ 0)
    (h : matchesTotal (a.length + b.length) a b = 0) : seqRatio a b = 0 := by
  unfold seqRatio
  rw [if_neg h0, h]
  norm_num

/-- C5 witness: a concrete unequal, non-overlapping, low-similarity pair on
which the theorem yields 0.0. -/
theorem c5_header_match_witness :
    hmMatch id "ab".data ["xy".data] = 0 :=
  (c5_header_match id "ab".data "xy".data).2 (by decide) (by decide) (by decide)
    (by
      have h1 : hmNormalize id "ab".data = "ab".data := rfl
      have h2 : hmNormalize id "xy".data = "xy".data := rfl
      have h3 : matchesTotal ("ab".data.length + "xy".data.length)
          "ab".data "xy".data = 0 := by decide
      rw [h1, h2, seqRatio_of_no_matches (by decide) h3]
      norm_num)

/-- C1 (amended): the strip-confidence transform recursively removes every
entry keyed "confidence" from arbitrarily nested structures, but it does not
unwrap the remaining value key: on the spec example it returns the field
bound to a dict still containing the value entry. -/
theorem c1_strip_confidence :
    stripConfidence exampleFieldDict = .jobj [("f", .jobj [("value", .jstr "x")])] ∧
    ∀ j : JVal, noConfKey (stripConfidence j) = true := by
  exact ⟨rfl, noConfKey_strip⟩

/-- A pdfplumber table cell: either None or a string. -/
abbrev PyCell := Option (List Char)

/-- Python truthiness of a cell: None and the empty string are falsy. -/
def pyTruthy : PyCell → Bool
  | none => false
  | some s => !s.isEmpty

/-- Python str() applied to a cell value. -/
def pyStr : PyCell → List Char
  | none => "None".data
  | some s => s

/-- Indexing a row that is possibly too short; callers only use indices the
source has bounds-checked. -/
def cellAt (row : List PyCell) (k : Nat) : PyCell := row.getD k none

/-- The remainder after the first occurrence of the separator, as produced by
Python split(sep, 1) when the separator occurs; none when it does not occur
(in which case the source's containment test also fails). -/
def splitOnceAt (c : Char) : List Char → Option (List Char)
  | [] => none
  | x :: t => if x = c then some t else splitOnceAt c t

/-- CONFIG HEADER_ALIASES from table_parser.py. -/
def locationAliases : List (List Char) :=
  ["Location of Center".data, "Location".data, "Centre at".data,
    "Estimated center".data]

def movementAliases : List (List Char) :=
  ["Present Movement".data, "Movement".data, "Direction and speed".data]

def windspeedAliases : List (List Char) :=
  ["Intensity".data, "Maximum sustained winds".data, "Winds".data, "MSW".data,
    "Sustained winds".data]

def updatedDatetimeAliases : List (List Char) :=
  ["Issued at".data, "Issued:".data, "Issued as of".data, "Date/Time".data,
    "Date and Time".data, "Issued".data]

def tcwsAliases : List (List Char) :=
  ["TROPICAL CYCLONE WIND SIGNALS".data, "TCWS".data, "WIND SIGNALS".data]

def rainfallAliases : List (List Char) :=
  ["Heavy Rainfall Outlook".data, "HEAVY RAINFALL".data,
    "Rainfall Warning".data, "Rainfall".data]

/-- A page of raw pdfplumber output as consumed by TableParser. -/
structure PdfPage where
  pageNumber : Nat
  tables : List (List (List PyCell))

/-- One flattened row: the original cells paired with the cleaned cells. -/
abbrev FlatRow := List PyCell × List (List Char)

/-- TableParser._flatten_tables: pages, then tables, then rows, each row
stored as (original, cleaned) where cleaning normalizes truthy cells and
maps falsy cells to the empty string. -/
def flattenTables (nfkc : List Char → List Char) (pages : List PdfPage) :
    List FlatRow :=
  ((pages.map PdfPage.tables).flatten.flatten).map
    (fun row =>
      (row, row.map (fun c => if pyTruthy c then hmNormalize nfkc (pyStr c) else [])))

/-- An extracted field: optional value plus confidence. -/
structure ExtractedField where
  value : Option (List Char)
  confidence : ℚ
deriving DecidableEq

/-- Is the current value variable still falsy (None or empty string)? -/
def pyFalsyVal : Option (List Char) → Bool
  | none => true
  | some s => s.isEmpty

/-- The value computed by the body of TableParser._extract_simple_field for a
header hit at row i, column j: first the next cell in the same row, else the
next row (same column index, then first cell), and only if those produced
nothing, the part of the header cell after a colon. -/
def rawCellValueA (ft : List FlatRow) (origRow : List PyCell) (i j : Nat) :
    Option (List Char) :=
  if j + 1 < origRow.length && pyTruthy (cellAt origRow (j + 1)) then
    some (pyStrip (pyStr (cellAt origRow (j + 1))))
  else if i + 1 < ft.length then
    let nextOrig := (ft.getD (i + 1) ([], [])).1
    if decide (j < nextOrig.length) && pyTruthy (cellAt nextOrig j) then
      some (pyStrip (pyStr (cellAt nextOrig j)))
    else if !nextOrig.isEmpty && pyTruthy (cellAt nextOrig 0) then
      some (pyStrip (pyStr (cellAt nextOrig 0)))
    else none
  else none

def rawCellValue (ft : List FlatRow) (origRow : List PyCell) (i j : Nat) :
    Option (List Char) :=
  let v1 := rawCellValueA ft origRow i j
  if pyFalsyVal v1 then
    match splitOnceAt ':' (pyStr (cellAt origRow j)) with
    | some rem => if !(pyStrip rem).isEmpty then some (pyStrip rem) else v1
    | none => v1
  else v1

/-- Processing of one cleaned cell inside the double loop of
TableParser._extract_simple_field: empty cells are skipped, a header match
above 0.7 triggers value extraction, and a successful extraction replaces
the best result when its confidence is strictly higher. -/
def esfCell (nfkc : List Char → List Char) (aliases : List (List Char))
    (ft : List FlatRow) (i : Nat) (origRow : List PyCell)
    (best : ExtractedField) (j : Nat) (cell : List Char) : ExtractedField :=
  if cell = [] then best
  else
    let conf := hmMatch nfkc cell aliases
    if 7/10 < conf then
      match rawCellValue ft origRow i j with
      | none => best
      | some v =>
        if v = [] then best
        else
          let v2 := pyStrip (collapseWs v)
          if best.confidence < conf then ⟨some v2, conf⟩ else best
    else best

/-- TableParser._extract_simple_field: scan every flattened row and cell. -/
def extractSimpleField (nfkc : List Char → List Char)
    (aliases : List (List Char)) (ft : List FlatRow) : ExtractedField :=
  ft.enum.foldl
    (fun best (irow : Nat × FlatRow) =>
      irow.2.2.enum.foldl
        (fun best2 (jcell : Nat × List Char) =>
          esfCell nfkc aliases ft irow.1 irow.2.1 best2 jcell.1 jcell.2)
        best)
    ⟨none, 0⟩

/-- The look-down part of DataExtractor._find_value. -/
def findValueDown (grid : List (List (List Char))) (r c : Nat) :
    Option (List Char) :=
  let nextRow := grid.getD (r + 1) []
  let v1 : Option (List Char) :=
    if c < nextRow.length then
      let v := pyStrip (nextRow.getD c [])
      if !v.isEmpty then some v else none
    else none
  match v1 with
  | some v => some v
  | none =>
    if 0 < nextRow.length then
      let v := pyStrip (nextRow.getD 0 [])
      if !v.isEmpty then some v else none
    else none

/-- DataExtractor._find_value: look at a colon inside the header cell first,
then right in the same row, then down in the next row (same column, then
first column). -/
def findValue (grid : List (List (List Char))) (r c : Nat) :
    Option (List Char) :=
  let row := grid.getD r []
  let cell := row.getD c []
  let afterColon : Option (List Char) :=
    match splitOnceAt ':' cell with
    | some rem => if !(pyStrip rem).isEmpty then some (pyStrip rem) else none
    | none => none
  match afterColon with
  | some v => some v
  | none =>
    if c + 1 < row.length then
      let v := pyStrip (row.getD (c + 1) [])
      if !v.isEmpty then some v
      else if r + 1 < grid.length then findValueDown grid r c
      else none
    else if r + 1 < grid.length then findValueDown grid r c
    else none

/-- C2 counterexample: a grid whose header cell is "Location: X" while the
next cell in the same row holds "Y".  The claim says the colon remainder X
is extracted; the 0.7-threshold extractor of TableParser returns Y. -/
theorem c2_counterexample :
    extractSimpleField id locationAliases
        (flattenTables id [⟨1, [[[some "Location: X".data, some "Y".data]]]⟩])
      = ⟨some "Y".data, 9/10⟩ ∧ "Y".data ≠ "X".data := by
  constructor
  · with_unfolding_all decide
  · decide

/-- C2 (amended): in TableParser._extract_simple_field the priority is
look-right, then look-down, and the colon split of the header cell fires
only when those produced nothing; DataExtractor._find_value instead tries
the colon split before everything else. -/
theorem c2_extraction_priority :
    (∀ (ft : List FlatRow) (origRow : List PyCell) (i j : Nat),
      j + 1 < origRow.length →
      pyTruthy (cellAt origRow (j + 1)) = true →
      (pyStrip (pyStr (cellAt origRow (j + 1)))).isEmpty = false →
      rawCellValue ft origRow i j
        = some (pyStrip (pyStr (cellAt origRow (j + 1))))) ∧
    (∀ (ft : List FlatRow) (origRow : List PyCell) (i j : Nat) (rem : List Char),
      (decide (j + 1 < origRow.length) && pyTruthy (cellAt origRow (j + 1))) = false →
      ¬ i + 1 < ft.length →
      splitOnceAt ':' (pyStr (cellAt origRow j)) = some rem →
      (pyStrip rem).isEmpty = false →
      rawCellValue ft origRow i j = some (pyStrip rem)) ∧
    (∀ (grid : List (List (List Char))) (r c : Nat) (rem : List Char),
      splitOnceAt ':' ((grid.getD r []).getD c []) = some rem →
      (pyStrip rem).isEmpty = false →
      findValue grid r c = some (pyStrip rem)) := by
  refine ⟨?_, ?_, ?_⟩
  · intro ft origRow i j hj hc hs
    have hA : rawCellValueA ft origRow i j
        = some (pyStrip (pyStr (cellAt origRow (j + 1)))) := by
      unfold rawCellValueA
      have hcond : (decide (j + 1 < origRow.length)
          && pyTruthy (cellAt origRow (j + 1))) = true := by
        simp [hj, hc]
      rw [if_pos hcond]
    unfold rawCellValue
    rw [hA]
    simp [pyFalsyVal, hs]
  · intro ft origRow i j rem hcond hnext hsplit hs
    have hA : rawCellValueA ft origRow i j = none := by
      unfold rawCellValueA
      rw [if_neg, if_neg hnext]
      simp [hcond]
    unfold rawCellValue
    rw [hA]
    simp [pyFalsyVal, hsplit, hs]
  · intro grid r c rem hsplit hs
    unfold findValue
    dsimp only
    rw [hsplit]
    simp [hs]

/-- C2 witness: the three priority facts at concrete inputs.  The header
cell "Location: X" with next cell "Y" yields Y in TableParser; without a
next cell the colon remainder X is used; DataExtractor returns X even with
the next cell present. -/
theorem c2_extraction_priority_witness :
    rawCellValue [] [some "Location: X".data, some "Y".data] 0 0
      = some "Y".data ∧
    rawCellValue [] [some "Location: X".data] 0 0 = some "X".data ∧
    findValue [["Location: X".data, "Y".data]] 0 0 = some "X".data := by
  refine ⟨?_, ?_, ?_⟩
  · exact (c2_extraction_priority.1 [] [some "Location: X".data, some "Y".data]
      0 0 (by decide) (by decide) (by decide)).trans (by decide)
  · exact (c2_extraction_priority.2.1 [] [some "Location: X".data] 0 0
      " X".data (by decide) (by decide) (by decide) (by decide)).trans (by decide)
  · exact (c2_extraction_priority.2.2 [["Location: X".data, "Y".data]] 0 0
      " X".data (by decide) (by decide)).trans (by decide)

/-- Case-insensitive startswith over the ASCII case mapping. -/
def startsWithCI : List Char → List Char → Bool
  | _, [] => true
  | [], _ :: _ => false
  | a :: l, b :: p => (a.toLower = b.toLower) && startsWithCI l p

/-- One attempt of the pattern matching "issued", optional whitespace, "at",
optional whitespace (case-insensitive, both whitespace runs greedy) at the
head of the list; returns the rest after the match. -/
def matchIssuedAt (l : List Char) : Option (List Char) :=
  if startsWithCI l "issued".data then
    let r1 := (l.drop 6).dropWhile isWs
    if startsWithCI r1 "at".data then some ((r1.drop 2).dropWhile isWs)
    else none
  else none

/-- Python re.sub removing every occurrence of the issued-at pattern,
scanning left to right; fuel is the input length, which suffices because
every step consumes at least one character. -/
def removeIssuedAtAux : Nat → List Char → List Char
  | 0, l => l
  | _, [] => []
  | fuel + 1, c :: t =>
    match matchIssuedAt (c :: t) with
    | some rest => removeIssuedAtAux fuel rest
    | none => c :: removeIssuedAtAux fuel t

def removeIssuedAt (l : List Char) : List Char := removeIssuedAtAux l.length l

/-- Python re.split on Valid or Synopsis (case-insensitive), keeping part 0:
the prefix before the first occurrence of either word. -/
def splitValidSyn : List Char → List Char
  | [] => []
  | c :: t =>
    if startsWithCI (c :: t) "valid".data || startsWithCI (c :: t) "synopsis".data
    then [] else c :: splitValidSyn t

/-- The cleaning pipeline of TableParser._extract_datetime: strip the
issued-at lead-in, strip, cut any trailing Valid/Synopsis clause, strip. -/
def cleanDatetimeVal (raw : List Char) : List Char :=
  pyStrip (splitValidSyn (pyStrip (removeIssuedAt raw)))

/-- The ordered datetime format strings tried by _extract_datetime. -/
def dtFormats : List String :=
  ["%I:%M %p, %d %B %Y", "%I:%M %p %d %B %Y", "%H:%M, %d %B %Y",
    "%B %d, %Y %I:%M %p"]

/-- TableParser._extract_datetime.  The behaviour of datetime.strptime for a
given format, combined with attaching the fixed UTC+8 offset and ISO
formatting, is external library behaviour passed in as strptimeIso (none
models the ValueError path).  On full parse failure the cleaned string is
kept and the confidence is scaled by 0.8; nothing is raised. -/
def extractDatetime (nfkc : List Char → List Char)
    (strptimeIso : String → List Char → Option (List Char))
    (ft : List FlatRow) : ExtractedField :=
  let result := extractSimpleField nfkc updatedDatetimeAliases ft
  match result.value with
  | none => result
  | some raw =>
    let cleanVal := cleanDatetimeVal raw
    let dt := dtFormats.foldl
      (fun acc fmt =>
        match acc with
        | some d => some d
        | none => strptimeIso fmt cleanVal)
      none
    match dt with
    | some iso => ⟨some iso, result.confidence⟩
    | none => ⟨some cleanVal, result.confidence * (4/5)⟩

/-- C9: when the generic extraction produced a raw value and the cleaned
string matches none of the fixed ordered datetime formats, the returned
field keeps the cleaned raw string and its confidence is the generic
confidence multiplied by 0.8; the failure path is a total function, never
an exception. -/
theorem c9_datetime_fallback (nfkc : List Char → List Char)
    (strptimeIso : String → List Char → Option (List Char))
    (ft : List FlatRow) (raw : List Char) (conf : ℚ)
    (h1 : extractSimpleField nfkc updatedDatetimeAliases ft = ⟨some raw, conf⟩)
    (h2 : ∀ fmt ∈ dtFormats, strptimeIso fmt (cleanDatetimeVal raw) = none) :
    extractDatetime nfkc strptimeIso ft
      = ⟨some (cleanDatetimeVal raw), conf * (4/5)⟩ := by
  have e1 := h2 "%I:%M %p, %d %B %Y" (by simp [dtFormats])
  have e2 := h2 "%I:%M %p %d %B %Y" (by simp [dtFormats])
  have e3 := h2 "%H:%M, %d %B %Y" (by simp [dtFormats])
  have e4 := h2 "%B %d, %Y %I:%M %p" (by simp [dtFormats])
  unfold extractDatetime
  rw [h1]
  simp only [dtFormats, List.foldl, e1, e2, e3, e4]

/-- C9 witness: a one-row grid whose header cell matches the Issued at alias
exactly and whose value cell parses under no format (the strptime model
refuses every input). -/
theorem c9_datetime_fallback_witness :
    extractDatetime id (fun _ _ => none)
        (flattenTables id [⟨1, [[[some "Issued at".data, some "zzzz".data]]]⟩])
      = ⟨some "zzzz".data, 1 * (4/5)⟩ := by
  have h1 : extractSimpleField id updatedDatetimeAliases
      (flattenTables id [⟨1, [[[some "Issued at".data, some "zzzz".data]]]⟩])
      = ⟨some "zzzz".data, 1⟩ := by with_unfolding_all decide
  exact (c9_datetime_fallback id (fun _ _ => none) _ "zzzz".data 1 h1
    (fun _ _ => rfl)).trans (by with_unfolding_all decide)

/-- A row of the consolidated locations reference table. -/
structure GazRow where
  locationName : List Char
  locationType : List Char
  islandGroup : List Char
deriving DecidableEq

/-- LocationMatcher priority dict with default 0 for unknown types. -/
def typePriority (t : List Char) : Nat :=
  if t = "Province".data then 5
  else if t = "Region".data then 4
  else if t = "City".data then 3
  else if t = "Municipality".data then 2
  else if t = "Barangay".data then 1
  else 0

/-- Python dict update used in the LocationMatcher build loop: insert a new
key at the end, or replace the stored entry in place when the new priority is
strictly higher. -/
def setOrAddGrouped (l : List (List Char × Nat × List Char)) (k : List Char)
    (p : Nat) (g : List Char) : List (List Char × Nat × List Char) :=
  match l with
  | [] => [(k, p, g)]
  | (k2, p2, g2) :: t =>
    if k2 = k then
      if p2 < p then (k, p, g) :: t else (k2, p2, g2) :: t
    else (k2, p2, g2) :: setOrAddGrouped t k p g

/-- One build step of LocationMatcher.__init__ over a reference row. -/
def stepG (acc : List (List Char × Nat × List Char)) (r : GazRow) :
    List (List Char × Nat × List Char) :=
  setOrAddGrouped acc (pyLower r.locationName) (typePriority r.locationType)
    r.islandGroup

/-- The grouped dict of LocationMatcher.__init__. -/
def buildGrouped (rows : List GazRow) : List (List Char × Nat × List Char) :=
  rows.foldl stepG []

/-- LocationMatcher.location_dict: name key to island group. -/
def locationDict (rows : List GazRow) : List (List Char × List Char) :=
  (buildGrouped rows).map (fun kv => (kv.1, kv.2.2))

/-- LocationMatcher.REGION_MAPPING, in source order. -/
def regionMapping : List (List Char × List Char) :=
  [("Ilocos Region".data, "Luzon".data),
   ("Cagayan Valley".data, "Luzon".data),
   ("Central Luzon".data, "Luzon".data),
   ("CALABARZON".data, "Luzon".data),
   ("MIMAROPA".data, "Luzon".data),
   ("Bicol Region".data, "Luzon".data),
   ("Western Visayas".data, "Visayas".data),
   ("Central Visayas".data, "Visayas".data),
   ("Eastern Visayas".data, "Visayas".data),
   ("Zamboanga Peninsula".data, "Mindanao".data),
   ("Northern Mindanao".data, "Mindanao".data),
   ("Davao Region".data, "Mindanao".data),
   ("SOCCSKSARGEN".data, "Mindanao".data),
   ("Caraga".data, "Mindanao".data),
   ("Bangsamoro".data, "Mindanao".data),
   ("BARMM".data, "Mindanao".data),
   ("National Capital Region".data, "Luzon".data),
   ("NCR".data, "Luzon".data),
   ("Cordillera Administrative Region".data, "Luzon".data),
   ("CAR".data, "Luzon".data)]

/-- The substring scan over the lookup dict in find_island_group. -/
def firstSubstrMatch (l : List (List Char × List Char)) (nl : List Char) :
    Option (List Char) :=
  match l with
  | [] => none
  | (k, g) :: t =>
    if containsSub k nl || containsSub nl k then some g
    else firstSubstrMatch t nl

/-- The REGION_MAPPING scan in find_island_group: per entry, equality first,
then substring containment in either direction. -/
def firstRegionMatch (nl : List Char) :
    List (List Char × List Char) → Option (List Char)
  | [] => none
  | (r, g) :: t =>
    if pyLower r = nl then some g
    else if containsSub nl (pyLower r) || containsSub (pyLower r) nl then some g
    else firstRegionMatch nl t

/-- LocationMatcher.find_island_group over the lookup table built from the
reference rows. -/
def findIslandGroup (rows : List GazRow) (name : List Char) :
    Option (List Char) :=
  if name.isEmpty then none
  else
    let nl := pyStrip (pyLower name)
    match List.lookup nl (locationDict rows) with
    | some g => some g
    | none =>
      match firstSubstrMatch (locationDict rows) nl with
      | some g => some g
      | none => firstRegionMatch nl regionMapping

/-- The effect on one key of folding the keyed rows in order. -/
def updG (o : Option (Nat × List Char)) (r : GazRow) :
    Option (Nat × List Char) :=
  match o with
  | none => some (typePriority r.locationType, r.islandGroup)
  | some pg =>
    if pg.1 < typePriority r.locationType then
      some (typePriority r.locationType, r.islandGroup)
    else some pg

theorem lookup_setOrAdd_self (k : List Char) (p : Nat) (g : List Char) :
    ∀ l : List (List Char × Nat × List Char),
      List.lookup k (setOrAddGrouped l k p g)
        = match List.lookup k l with
          | none => some (p, g)
          | some pg => if pg.1 < p then some (p, g) else some pg
  | [] => by simp [setOrAddGrouped, List.lookup]
  | (k2, p2, g2) :: t => by
    by_cases hk : k2 = k
    · subst hk
      by_cases hp : p2 < p
      · simp [setOrAddGrouped, hp, List.lookup]
      · simp [setOrAddGrouped, hp, List.lookup]
    · have hbeq : (k == k2) = false := beq_eq_false_iff_ne.mpr fun h => hk h.symm
      simp only [setOrAddGrouped, if_neg hk, List.lookup, hbeq]
      exact lookup_setOrAdd_self k p g t

theorem lookup_setOrAdd_other (k k2 : List Char) (p : Nat) (g : List Char)
    (hne : k2 ≠ k) :
    ∀ l : List (List Char × Nat × List Char),
      List.lookup k2 (setOrAddGrouped l k p g) = List.lookup k2 l
  | [] => by
    have hbeq : (k2 == k) = false := beq_eq_false_iff_ne.mpr hne
    simp [setOrAddGrouped, List.lookup, hbeq]
  | (k3, p3, g3) :: t => by
    by_cases hk : k3 = k
    · subst hk
      have hbeq : (k2 == k3) = false := beq_eq_false_iff_ne.mpr hne
      by_cases hp : p3 < p
      · simp [setOrAddGrouped, hp, List.lookup, hbeq]
      · simp [setOrAddGrouped, hp, List.lookup, hbeq]
    · by_cases h23 : k2 = k3
      · simp [setOrAddGrouped, if_neg hk, List.lookup, h23]
      · have hbeq : (k2 == k3) = false := beq_eq_false_iff_ne.mpr h23
        simp only [setOrAddGrouped, if_neg hk, List.lookup, hbeq]
        exact lookup_setOrAdd_other k k2 p g hne t

theorem lookup_buildGrouped_aux (key : List Char) :
    ∀ (rows : List GazRow) (acc : List (List Char × Nat × List Char)),
      List.lookup key (rows.foldl stepG acc)
        = (rows.filter
            (fun r => decide (pyLower r.locationName = key))).foldl
              updG (List.lookup key acc)
  | [], acc => rfl
  | r :: t, acc => by
    rw [List.foldl_cons]
    rw [lookup_buildGrouped_aux key t (stepG acc r)]
    by_cases hk : pyLower r.locationName = key
    · have hstep : List.lookup key (stepG acc r) = updG (List.lookup key acc) r := by
        unfold stepG
        rw [hk, lookup_setOrAdd_self]
        unfold updG
        cases List.lookup key acc with
        | none => rfl
        | some pg => rfl
      rw [hstep, List.filter_cons_of_pos (by simpa using hk), List.foldl_cons]
    · have hstep : List.lookup key (stepG acc r) = List.lookup key acc := by
        unfold stepG
        exact lookup_setOrAdd_other _ _ _ _ (fun h => hk h.symm) acc
      rw [hstep, List.filter_cons_of_neg (by simpa using hk)]

theorem lookup_map_snd (k : List Char) :
    ∀ l : List (List Char × Nat × List Char),
      List.lookup k (l.map (fun kv => (kv.1, kv.2.2)))
        = (List.lookup k l).map (fun v => v.2)
  | [] => rfl
  | (k2, v) :: t => by
    by_cases h : k = k2
    · simp [List.lookup, h]
    · have hbeq : (k == k2) = false := beq_eq_false_iff_ne.mpr h
      simp only [List.map_cons, List.lookup, hbeq]
      exact lookup_map_snd k t

/-- C7: when the reference table's rows for a given lowercased name are
exactly one Province row and one Barangay row (in either order), the built
lookup table retains the Province row's island group, and find_island_group
returns it for that name. -/
theorem c7_gazetteer_priority (rows : List GazRow)
    (name key n1 n2 g1 g2 : List Char)
    (hname : name.isEmpty = false)
    (hkey : pyStrip (pyLower name) = key)
    (hcase :
      rows.filter (fun r => decide (pyLower r.locationName = key))
          = [⟨n1, "Province".data, g1⟩, ⟨n2, "Barangay".data, g2⟩] ∨
      rows.filter (fun r => decide (pyLower r.locationName = key))
          = [⟨n1, "Barangay".data, g2⟩, ⟨n2, "Province".data, g1⟩]) :
    findIslandGroup rows name = some g1 := by
  have hlook : List.lookup key (buildGrouped rows) = some (5, g1) := by
    unfold buildGrouped
    rw [lookup_buildGrouped_aux key rows []]
    rcases hcase with h | h
    · rw [h]
      simp +decide [updG, typePriority, List.lookup]
    · rw [h]
      simp +decide [updG, typePriority, List.lookup]
  have hdict : List.lookup key (locationDict rows) = some g1 := by
    unfold locationDict
    rw [lookup_map_snd, hlook]
    rfl
  unfold findIslandGroup
  rw [if_neg (by simp [hname]), hkey]
  dsimp only
  rw [hdict]

/-- C7 witness: a two-row table with the same lowercased name under Province
(Luzon) and Barangay (Mindanao); the lookup returns Luzon. -/
theorem c7_gazetteer_priority_witness :
    findIslandGroup
        [⟨"batanes".data, "Barangay".data, "Mindanao".data⟩,
         ⟨"Batanes".data, "Province".data, "Luzon".data⟩]
        "Batanes".data = some "Luzon".data :=
  c7_gazetteer_priority _ "Batanes".data "batanes".data
    "batanes".data "Batanes".data "Luzon".data "Mindanao".data
    (by decide) (by decide) (Or.inr (by decide))

/-- A per-level island-group record, as an insertion-ordered dict. -/
abbrev IslandRec := List (String × Option (List Char))

/-- The all-null record with the four region keys. -/
def nullSignalRec : IslandRec :=
  [("Luzon", none), ("Visayas", none), ("Mindanao", none), ("Other", none)]

/-- The initialized result of SignalWarningExtractor.extract_signals:
levels 1 through 5, every region key null. -/
def allNullSignals : List (Nat × IslandRec) :=
  [(1, nullSignalRec), (2, nullSignalRec), (3, nullSignalRec),
   (4, nullSignalRec), (5, nullSignalRec)]

/-- SignalWarningExtractor.extract_signals: when the lowercased bulletin text
contains the no-signal phrase, the initialized all-null table is returned at
once.  Otherwise the section extraction and table parsing run; that
continuation (_extract_signal_section composed with _parse_signal_table,
including the empty-section early return) is passed in as parseRest, so the
short-circuit theorem holds whatever that code computes. -/
def extractSignalsML (parseRest : List Char → List (Nat × IslandRec))
    (text : List Char) : List (Nat × IslandRec) :=
  if containsSub (pyLower text) "no tropical cyclone wind signal".data then
    allNullSignals
  else parseRest text

/-- C10: if the bulletin text contains the phrase, extract_signals returns
the table whose entries for levels 1-5 and every region key (Luzon,
Visayas, Mindanao, Other) are all null, regardless of any TCWS table
content also present in the text. -/
theorem c10_no_signal_short_circuit
    (parseRest : List Char → List (Nat × IslandRec)) (text : List Char)
    (h : containsSub (pyLower text) "no tropical cyclone wind signal".data
      = true) :
    extractSignalsML parseRest text = allNullSignals ∧
    (∀ level, level ∈ [1, 2, 3, 4, 5] →
      (extractSignalsML parseRest text).lookup level = some nullSignalRec) ∧
    (∀ k v, (k, v) ∈ nullSignalRec → v = none) := by
  have he : extractSignalsML parseRest text = allNullSignals := by
    unfold extractSignalsML
    rw [h]
    simp
  refine ⟨he, ?_, ?_⟩
  swap
  · intro k v hv
    simp only [nullSignalRec, List.mem_cons, Prod.mk.injEq,
      List.not_mem_nil, or_false] at hv
    rcases hv with ⟨-, h⟩ | ⟨-, h⟩ | ⟨-, h⟩ | ⟨-, h⟩ <;> exact h
  intro level hl
  rw [he]
  fin_cases hl <;> rfl

/-- C10 witness: a text that contains both the no-signal phrase and TCWS
table content, with a continuation that would return a populated table. -/
theorem c10_no_signal_short_circuit_witness :
    extractSignalsML (fun _ => [(3, [("Luzon", some "Cagayan".data)])])
        "THERE IS NO Tropical Cyclone Wind Signal IN EFFECT. TCWS No. 1 Luzon Cagayan - -".data
      = allNullSignals :=
  (c10_no_signal_short_circuit _ _ (by decide)).1

/-- The column map of TableParser._extract_signals: per region (Luzon,
Visayas, Mindanao) the detected column index; none models the initial -1. -/
abbrev ColMap := Option Nat × Option Nat × Option Nat

/-- The inner region loop over one cleaned cell: record the cell index for a
region whose lowercased name occurs in the cell, only if not yet set. -/
def updColCell (rIdx : Nat) (cell : List Char) (cm : ColMap) : ColMap :=
  (if containsSub cell "luzon".data && cm.1.isNone then some rIdx else cm.1,
   if containsSub cell "visayas".data && cm.2.1.isNone then some rIdx else cm.2.1,
   if containsSub cell "mindanao".data && cm.2.2.isNone then some rIdx else cm.2.2)

/-- Scan one cleaned row for region header cells. -/
def updColRow (row : List (List Char)) (cm : ColMap) : ColMap :=
  row.enum.foldl (fun cm rc => updColCell rc.1 rc.2 cm) cm

/-- Scan the window of up to five rows below an anchor hit, accumulating the
column map, stopping at the first row index where all three regions have a
column. -/
def scanHeader (ft : List FlatRow) (cm : ColMap) :
    List Nat → ColMap × Option Nat
  | [] => (cm, none)
  | idx :: rest =>
    let cm2 := updColRow (ft.getD idx ([], [])).2 cm
    if cm2.1.isSome && cm2.2.1.isSome && cm2.2.2.isSome then (cm2, some idx)
    else scanHeader ft cm2 rest

/-- The cell loop of the anchor search: a cell whose TCWS-alias confidence
exceeds 0.8 triggers the header-window scan; the column map persists across
failed attempts exactly as in the source. -/
def fshCells (nfkc : List Char → List Char) (ft : List FlatRow) (i : Nat)
    (cm : ColMap) : List (List Char) → ColMap × Option Nat
  | [] => (cm, none)
  | cell :: rest =>
    if 4/5 < hmMatch nfkc cell tcwsAliases then
      match scanHeader ft cm (List.range' i (min (i + 5) ft.length - i)) with
      | (cm2, some hidx) => (cm2, some hidx)
      | (cm2, none) => fshCells nfkc ft i cm2 rest
    else fshCells nfkc ft i cm rest

/-- The row loop of the anchor search. -/
def fshRows (nfkc : List Char → List Char) (ft : List FlatRow)
    (cm : ColMap) : List (Nat × FlatRow) → ColMap × Option Nat
  | [] => (cm, none)
  | (i, row) :: rest =>
    match fshCells nfkc ft i cm row.2 with
    | (cm2, some hidx) => (cm2, some hidx)
    | (cm2, none) => fshRows nfkc ft cm2 rest

/-- Part 1 of TableParser._extract_signals: find the signals table header. -/
def findSignalHeader (nfkc : List Char → List Char) (ft : List FlatRow) :
    ColMap × Option Nat :=
  fshRows nfkc ft (none, none, none) ft.enum

/-- Python word characters for the ASCII word-boundary regex. -/
def isWordChar (c : Char) : Bool :=
  ('a' ≤ c && c ≤ 'z') || ('A' ≤ c && c ≤ 'Z') || ('0' ≤ c && c ≤ '9') || c = '_'

/-- re.search for a digit 1-5 between word boundaries: first such position,
returning the digit value. -/
def searchSigDigitGo (prev : Option Char) : List Char → Option Nat
  | [] => none
  | c :: rest =>
    if ('1' ≤ c && c ≤ '5')
        && (match prev with | none => true | some p => !isWordChar p)
        && (match rest.head? with | none => true | some n => !isWordChar n) then
      some (c.toNat - '0'.toNat)
    else searchSigDigitGo (some c) rest

def searchSigDigit (l : List Char) : Option Nat := searchSigDigitGo none l

/-- re.sub replacing every run of newline or carriage-return characters by
a semicolon and a space. -/
def replaceNlAux : Bool → List Char → List Char
  | _, [] => []
  | inRun, c :: t =>
    if c = '\n' || c = '\r' then
      if inRun then replaceNlAux true t
      else ';' :: ' ' :: replaceNlAux true t
    else c :: replaceNlAux false t

def replaceNl (l : List Char) : List Char := replaceNlAux false l

/-- Reading one region cell of a signal row: the stripped cell text, unless
it is empty, a dash, or the word none (case-insensitive).  The column index
is always set when this runs, because the header search only succeeds with
all three regions mapped. -/
def regionVal (row : List PyCell) (colIdx : Option Nat) : Option (List Char) :=
  match colIdx with
  | none => none
  | some idx =>
    if decide (idx < row.length) && pyTruthy (cellAt row idx) then
      let val := pyStrip (pyStr (cellAt row idx))
      if !val.isEmpty && val ≠ "-".data && pyLower val ≠ "none".data then
        some (replaceNl val)
      else none
    else none

/-- One signal level entry: the region dict and the confidence. -/
structure SigEntry where
  value : List (String × Option (List Char))
  confidence : ℚ
deriving DecidableEq

/-- Python dict assignment on an insertion-ordered association list. -/
def dictSet (l : List (Nat × SigEntry)) (k : Nat) (v : SigEntry) :
    List (Nat × SigEntry) :=
  match l with
  | [] => [(k, v)]
  | (k2, v2) :: t => if k2 = k then (k, v) :: t else (k2, v2) :: dictSet t k v

/-- Part 2 of TableParser._extract_signals: walk the rows below the header,
skipping fully falsy rows, stopping at a HAZARDS row, and recording a region
dict for every row whose first cell holds a signal digit. -/
def extractSignalRows (ft : List FlatRow) (cm : ColMap) :
    List Nat → List (Nat × SigEntry) → List (Nat × SigEntry)
  | [], acc => acc
  | i :: rest, acc =>
    let row := (ft.getD i ([], [])).1
    if !(row.any pyTruthy) then extractSignalRows ft cm rest acc
    else if row.any (fun c => pyTruthy c && containsSub (pyStr c) "HAZARDS".data)
    then acc
    else
      let firstCell :=
        if !row.isEmpty && pyTruthy (cellAt row 0) then
          pyStrip (pyStr (cellAt row 0))
        else []
      match searchSigDigit firstCell with
      | some sigNum =>
        let luz := regionVal row cm.1
        let vis := regionVal row cm.2.1
        let mnd := regionVal row cm.2.2
        let hasContent := luz.isSome || vis.isSome || mnd.isSome
        extractSignalRows ft cm rest
          (dictSet acc sigNum
            ⟨[("Luzon", luz), ("Visayas", vis), ("Mindanao", mnd)],
              if hasContent then 9/10 else 1/2⟩)
      | none => extractSignalRows ft cm rest acc

/-- TableParser._extract_signals. -/
def extractSignalsTable (nfkc : List Char → List Char) (ft : List FlatRow) :
    List (Nat × SigEntry) :=
  match findSignalHeader nfkc ft with
  | (_, none) => []
  | (cm, some hidx) =>
    extractSignalRows ft cm
      (List.range' (hidx + 1) (ft.length - (hidx + 1))) []

/-- In-place update of an island-group record, ignoring unknown keys. -/
def setAssocStr (l : List (String × Option (List Char))) (k : String)
    (v : Option (List Char)) : List (String × Option (List Char)) :=
  match l with
  | [] => []
  | (k2, v2) :: t => if k2 = k then (k, v) :: t else (k2, v2) :: setAssocStr t k v

/-- TyphoonBulletinExtractor._build_island_group_dict: start from the four
null region keys and copy over the values of the level's record whose keys
are among the four. -/
def buildIslandGroupDict (warnings : List (Nat × List (String × Option (List Char))))
    (level : Nat) : List (String × Option (List Char)) :=
  let result : List (String × Option (List Char)) :=
    [("Luzon", none), ("Visayas", none), ("Mindanao", none), ("Other", none)]
  match warnings.lookup level with
  | none => result
  | some levelData => levelData.foldl (fun res kv => setAssocStr res kv.1 kv.2) result

/-- The synthetic Signal Layout A grid from the spec. -/
def c3Grid : List PdfPage :=
  [⟨1, [[[some "TCWS".data, some "Luzon".data, some "Visayas".data,
          some "Mindanao".data],
         [some "3".data, some "Cagayan".data, some "-".data, some "-".data]]]⟩]

/-- The record the grid parser produces for level 3. -/
def c3Rec : List (String × Option (List Char)) :=
  [("Luzon", some "Cagayan".data), ("Visayas", none), ("Mindanao", none)]

/-- C3 counterexample: on the synthetic Layout A grid, the grid-based signal
extractor yields a record with only the three island-group keys; no Other
key is present, while the claim requires one. -/
theorem c3_counterexample :
    extractSignalsTable id (flattenTables id c3Grid) = [(3, ⟨c3Rec, 9/10⟩)] ∧
    "Other" ∉ c3Rec.map Prod.fst := by
  constructor
  · with_unfolding_all decide
  · decide

/-- C3 (amended): the synthetic grid yields, for level 3 only, the record
mapping Luzon to Cagayan and Visayas and Mindanao (dash cells) to null, with
keys Luzon, Visayas, Mindanao only; the Other key is added by the bulletin
assembler's _build_island_group_dict, not by the grid parser. -/
theorem c3_signal_layout_a :
    extractSignalsTable id (flattenTables id c3Grid) = [(3, ⟨c3Rec, 9/10⟩)] ∧
    c3Rec.lookup "Luzon" = some (some "Cagayan".data) ∧
    c3Rec.lookup "Visayas" = some none ∧
    c3Rec.lookup "Mindanao" = some none ∧
    (∀ l : Nat, l ≠ 3 →
      (extractSignalsTable id (flattenTables id c3Grid)).lookup l = none) ∧
    buildIslandGroupDict [(3, c3Rec)] 3
      = [("Luzon", some "Cagayan".data), ("Visayas", none), ("Mindanao", none),
         ("Other", none)] := by
  have he : extractSignalsTable id (flattenTables id c3Grid)
      = [(3, ⟨c3Rec, 9/10⟩)] := by
    with_unfolding_all decide
  refine ⟨he, rfl, rfl, rfl, ?_, by decide⟩
  intro l hl
  rw [he]
  have hbeq : (l == 3) = false := beq_eq_false_iff_ne.mpr hl
  simp [List.lookup, hbeq]

/-- C3 witness: levels other than 3 are absent from the extracted table. -/
theorem c3_signal_layout_a_witness :
    (extractSignalsTable id (flattenTables id c3Grid)).lookup 1 = none :=
  c3_signal_layout_a.2.2.2.2.1 1 (by decide)

/-- An axis-aligned box with rational pixel coordinates. -/
structure Box4 where
  x0 : ℚ
  y0 : ℚ
  x1 : ℚ
  y1 : ℚ
deriving DecidableEq

/-- A detected structure object as returned by the table detector. -/
structure DetObj where
  label : String
  score : ℚ
  box : Box4
deriving DecidableEq

/-- A positioned text token from the PDF word accessor. -/
structure Word where
  text : List Char
  x0 : ℚ
  top : ℚ
  x1 : ℚ
  bottom : ℚ
deriving DecidableEq

def wordBox (w : Word) : Box4 := ⟨w.x0, w.top, w.x1, w.bottom⟩

/-- MLTableParser.parse_page row selection: objects labelled table row,
stably sorted by vertical box center. -/
def rowBoxes (objects : List DetObj) : List Box4 :=
  ((objects.filter (fun o => o.label = "table row")).mergeSort
    (fun a b => decide ((a.box.y0 + a.box.y1) / 2 ≤ (b.box.y0 + b.box.y1) / 2))).map
    DetObj.box

/-- Column selection: objects labelled table column, stably sorted by
horizontal box center. -/
def colBoxes (objects : List DetObj) : List Box4 :=
  ((objects.filter (fun o => o.label = "table column")).mergeSort
    (fun a b => decide ((a.box.x0 + a.box.x1) / 2 ≤ (b.box.x0 + b.box.x1) / 2))).map
    DetObj.box

/-- The cell box: intersection rectangle of a row box and a column box. -/
def interBox (a b : Box4) : Box4 :=
  ⟨max a.x0 b.x0, max a.y0 b.y0, min a.x1 b.x1, min a.y1 b.y1⟩

/-- The per-word assignment loop of parse_page: over every (row, column)
pair in order, keep the cell whose overlap ratio both exceeds one half and
strictly improves on the best so far; none models best_r = -1. -/
def assignWord (rows cols : List Box4) (wb : Box4) : Option (Nat × Nat) :=
  (rows.enum.foldl
    (fun st r =>
      cols.enum.foldl
        (fun st c =>
          let cell := interBox r.2 c.2
          let ix1 := max wb.x0 cell.x0
          let iy1 := max wb.y0 cell.y0
          let ix2 := min wb.x1 cell.x1
          let iy2 := min wb.y1 cell.y1
          if ix1 < ix2 && iy1 < iy2 then
            let interArea := (ix2 - ix1) * (iy2 - iy1)
            let wordArea := (wb.x1 - wb.x0) * (wb.y1 - wb.y0)
            let ratR := interArea / wordArea
            if (1/2 : Rat) < ratR && st.1 < ratR then (ratR, some (r.1, c.1))
            else st
          else st)
        st)
    ((0 : Rat), (none : Option (Nat × Nat)))).2

/-- The empty grid of parse_page. -/
def emptyGrid (nr nc : Nat) : List (List (List Char)) :=
  List.replicate nr (List.replicate nc [])

/-- grid(r)(c) with the empty string as default. -/
def getCell (g : List (List (List Char))) (r c : Nat) : List Char :=
  (g.getD r []).getD c []

/-- The in-place cell update of parse_page: the new content is the old
content, a space and the token text, stripped. -/
def setGridCell (g : List (List (List Char))) (r c : Nat) (txt : List Char) :
    List (List (List Char)) :=
  g.set r ((g.getD r []).set c (pyStrip (getCell g r c ++ ' ' :: txt)))

/-- One word-assignment step of the grid fold. -/
def gridStep (rows cols : List Box4) (g : List (List (List Char)))
    (w : Word) : List (List (List Char)) :=
  match assignWord rows cols (wordBox w) with
  | some rc => setGridCell g rc.1 rc.2 w.text
  | none => g

/-- MLTableParser.parse_page on detected objects and words: empty output
when no rows were detected, otherwise every word is folded into the grid in
input order. -/
def parsePage (objects : List DetObj) (words : List Word) :
    List (List (List Char)) :=
  let rows := rowBoxes objects
  let cols := colBoxes objects
  if rows.isEmpty then []
  else words.foldl (gridStep rows cols) (emptyGrid rows.length cols.length)

/-- The in-cell concatenation in input order, starting from the empty
string. -/
def cellJoin (ws : List Word) : List Char :=
  ws.foldl (fun cur w => pyStrip (cur ++ ' ' :: w.text)) []

theorem fst_lt_of_mem_enum {α : Type} {l : List α} {p : Nat × α}
    (h : p ∈ l.enum) : p.1 < l.length := by
  have h2 := List.mem_enum_iff_getElem?.mp h
  by_contra hle
  rw [List.getElem?_eq_none (Nat.le_of_not_lt hle)] at h2
  exact Option.noConfusion h2

/-- Invariant of the assignment fold: any recorded best cell is in range. -/
abbrev awInv (rows cols : List Box4) (st : ℚ × Option (Nat × Nat)) : Prop :=
  ∀ rc : Nat × Nat, st.2 = some rc → rc.1 < rows.length ∧ rc.2 < cols.length

theorem assignWord_bounds (rows cols : List Box4) (wb : Box4) :
    ∀ rc, assignWord rows cols wb = some rc →
      rc.1 < rows.length ∧ rc.2 < cols.length := by
  suffices h : awInv rows cols
      (rows.enum.foldl
        (fun st r =>
          cols.enum.foldl
            (fun st c =>
              let cell := interBox r.2 c.2
              let ix1 := max wb.x0 cell.x0
              let iy1 := max wb.y0 cell.y0
              let ix2 := min wb.x1 cell.x1
              let iy2 := min wb.y1 cell.y1
              if ix1 < ix2 && iy1 < iy2 then
                let interArea := (ix2 - ix1) * (iy2 - iy1)
                let wordArea := (wb.x1 - wb.x0) * (wb.y1 - wb.y0)
                let ratR := interArea / wordArea
                if (1/2 : ℚ) < ratR && st.1 < ratR then (ratR, some (r.1, c.1))
                else st
              else st)
            st)
        ((0 : ℚ), (none : Option (Nat × Nat)))) by
    intro rc hrc
    exact h rc hrc
  refine List.foldlRecOn _ _ _ ?_ ?_
  · intro rc h
    exact absurd h (by simp)
  · intro st hst r hr
    refine List.foldlRecOn _ _ _ hst ?_
    intro st2 hst2 c hc
    dsimp only
    split
    · split
      · intro rc h
        injection h with h2
        exact h2 ▸ ⟨fst_lt_of_mem_enum hr, fst_lt_of_mem_enum hc⟩
      · exact hst2
    · exact hst2

theorem getD_set_self2 {α : Type} (l : List α) (i : Nat) (a d : α)
    (h : i < l.length) : (l.set i a).getD i d = a := by
  rw [List.getD_eq_getElem?_getD, List.getElem?_set_self h]
  rfl

theorem getD_set_other2 {α : Type} (l : List α) {i j : Nat} (a d : α)
    (h : i ≠ j) : (l.set i a).getD j d = l.getD j d := by
  rw [List.getD_eq_getElem?_getD, List.getElem?_set_ne h,
    ← List.getD_eq_getElem?_getD]

/-- Each cell of the folded grid is the in-order concatenation of the words
that the purely geometric assignment sends to that cell, on top of the
cell's previous content. -/
theorem gridFold_cell (rows cols : List Box4) :
    ∀ (ws : List Word) (g : List (List (List Char))) (r c : Nat),
      g.length = rows.length →
      (∀ i, i < g.length → (g.getD i []).length = cols.length) →
      r < rows.length → c < cols.length →
      getCell (ws.foldl (gridStep rows cols) g) r c
        = (ws.filter (fun w =>
            decide (assignWord rows cols (wordBox w) = some (r, c)))).foldl
            (fun cur w => pyStrip (cur ++ ' ' :: w.text)) (getCell g r c)
  | [], g, r, c, _, _, _, _ => rfl
  | w :: ws, g, r, c, hlen, hrows, hr, hc => by
    rw [List.foldl_cons]
    cases ha : assignWord rows cols (wordBox w) with
    | none =>
      have hstep : gridStep rows cols g w = g := by simp [gridStep, ha]
      rw [hstep, List.filter_cons_of_neg (by simp [ha])]
      exact gridFold_cell rows cols ws g r c hlen hrows hr hc
    | some rc0 =>
      obtain ⟨r0, c0⟩ := rc0
      obtain ⟨hb1, hb2⟩ := assignWord_bounds rows cols (wordBox w) (r0, c0) ha
      have hstep : gridStep rows cols g w = setGridCell g r0 c0 w.text := by
        simp [gridStep, ha]
      have hlen2 : (setGridCell g r0 c0 w.text).length = rows.length := by
        unfold setGridCell
        rw [List.length_set]
        exact hlen
      have hrows2 : ∀ i, i < (setGridCell g r0 c0 w.text).length →
          ((setGridCell g r0 c0 w.text).getD i []).length = cols.length := by
        intro i hi
        unfold setGridCell
        by_cases hir : r0 = i
        · subst hir
          rw [getD_set_self2 _ _ _ _ (hlen ▸ hb1), List.length_set]
          exact hrows r0 (hlen ▸ hb1)
        · rw [getD_set_other2 _ _ _ hir]
          exact hrows i (by rw [hlen, ← hlen2]; exact hi)
      by_cases heq : (r0, c0) = (r, c)
      · obtain ⟨he1, he2⟩ := Prod.mk.injEq .. ▸ heq
        subst he1
        subst he2
        have hcell : getCell (setGridCell g r0 c0 w.text) r0 c0
            = pyStrip (getCell g r0 c0 ++ ' ' :: w.text) := by
          unfold setGridCell getCell
          rw [getD_set_self2 _ _ _ _ (hlen ▸ hb1),
            getD_set_self2 _ _ _ _ ((hrows r0 (hlen ▸ hb1)) ▸ hb2)]
        rw [hstep, List.filter_cons_of_pos (by simp [ha]), List.foldl_cons,
          gridFold_cell rows cols ws _ r0 c0 hlen2 hrows2 hr hc, hcell]
      · have hcell : getCell (setGridCell g r0 c0 w.text) r c = getCell g r c := by
          unfold setGridCell getCell
          by_cases hir : r0 = r
          · subst hir
            have hcc : c0 ≠ c := by
              intro hcc
              exact heq (by rw [hcc])
            rw [getD_set_self2 _ _ _ _ (hlen ▸ hb1), getD_set_other2 _ _ _ hcc]
          · rw [getD_set_other2 _ _ _ hir]
        rw [hstep, List.filter_cons_of_neg (by simp [ha, heq]),
          gridFold_cell rows cols ws _ r c hlen2 hrows2 hr hc, hcell]

/-- C6: grid reconstruction is geometry-determined and token-order
independent: every cell of the reconstructed grid is the in-input-order
concatenation of exactly the tokens whose assignment (a function of the
token box and the detected rows and columns alone, picking the best overlap
ratio above one half under strict improvement) is that cell; for any
permutation of the token list the same multiset of tokens lands in every
cell, so grids for permuted inputs differ at most in in-cell concatenation
order. -/
theorem c6_grid_token_order (objects : List DetObj) (words words2 : List Word)
    (r c : Nat) (hperm : words2.Perm words)
    (hr : r < (rowBoxes objects).length)
    (hc : c < (colBoxes objects).length) :
    getCell (parsePage objects words) r c
      = cellJoin (words.filter (fun w =>
          decide (assignWord (rowBoxes objects) (colBoxes objects) (wordBox w)
            = some (r, c)))) ∧
    getCell (parsePage objects words2) r c
      = cellJoin (words2.filter (fun w =>
          decide (assignWord (rowBoxes objects) (colBoxes objects) (wordBox w)
            = some (r, c)))) ∧
    (words2.filter (fun w =>
        decide (assignWord (rowBoxes objects) (colBoxes objects) (wordBox w)
          = some (r, c)))).Perm
      (words.filter (fun w =>
        decide (assignWord (rowBoxes objects) (colBoxes objects) (wordBox w)
          = some (r, c)))) := by
  have hne : (rowBoxes objects).isEmpty = false := by
    cases hrow : rowBoxes objects with
    | nil => rw [hrow] at hr; exact absurd hr (by simp)
    | cons a t => rfl
  have main : ∀ ws : List Word,
      getCell (parsePage objects ws) r c
        = cellJoin (ws.filter (fun w =>
            decide (assignWord (rowBoxes objects) (colBoxes objects) (wordBox w)
              = some (r, c)))) := by
    intro ws
    unfold parsePage
    dsimp only
    rw [hne]
    simp only [Bool.false_eq_true, if_false]
    unfold cellJoin
    rw [gridFold_cell (rowBoxes objects) (colBoxes objects) ws _ r c
      (by simp [emptyGrid]) ?_ hr hc]
    · have hinit : getCell (emptyGrid (rowBoxes objects).length
          (colBoxes objects).length) r c = [] := by
        have h1 : (List.replicate (rowBoxes objects).length
            (List.replicate (colBoxes objects).length ([] : List Char))).getD r []
            = List.replicate (colBoxes objects).length [] := by
          rw [List.getD_eq_getElem?_getD, List.getElem?_replicate_of_lt hr]
          rfl
        unfold emptyGrid getCell
        rw [h1, List.getD_eq_getElem?_getD, List.getElem?_replicate_of_lt hc]
        rfl
      rw [hinit]
    · intro i hi
      unfold emptyGrid at hi ⊢
      rw [List.length_replicate] at hi
      rw [List.getD_eq_getElem?_getD, List.getElem?_replicate_of_lt hi]
      simp
  exact ⟨main words, main words2, hperm.filter _⟩

/-- A one-row one-column detection with a single token for the witness. -/
def c6Objects : List DetObj :=
  [⟨"table row", 9/10, ⟨0, 0, 10, 2⟩⟩, ⟨"table column", 9/10, ⟨0, 0, 10, 2⟩⟩]

def c6Word : Word := ⟨"hi".data, 1, 0, 2, 1⟩

/-- C6 witness: the cell characterization applied to the concrete page. -/
theorem c6_grid_token_order_witness :
    getCell (parsePage c6Objects [c6Word]) 0 0
      = cellJoin ([c6Word].filter (fun w =>
          decide (assignWord (rowBoxes c6Objects) (colBoxes c6Objects)
            (wordBox w) = some (0, 0)))) :=
  (c6_grid_token_order c6Objects [c6Word] [c6Word] 0 0 (List.Perm.refl _)
    (by simp [rowBoxes, c6Objects, List.mergeSort])
    (by simp [colBoxes, c6Objects, List.mergeSort])).1

/-- Python str.split with no separator helper: current reversed chunk plus
remaining input. -/
def pySplitWsAux (cur : List Char) : List Char → List (List Char)
  | [] => if cur.isEmpty then [] else [cur.reverse]
  | c :: t =>
    if isWs c then
      if cur.isEmpty then pySplitWsAux [] t
      else cur.reverse :: pySplitWsAux [] t
    else pySplitWsAux (c :: cur) t

/-- Python str.split(): split on whitespace runs, dropping empty chunks. -/
def pySplitWs (l : List Char) : List (List Char) := pySplitWsAux [] l

/-- Python str.split(sep) keeping empty chunks. -/
def splitOnCharAux (sep : Char) (cur : List Char) : List Char → List (List Char)
  | [] => [cur.reverse]
  | c :: t =>
    if c = sep then cur.reverse :: splitOnCharAux sep [] t
    else splitOnCharAux sep (c :: cur) t

def splitOnChar (sep : Char) (l : List Char) : List (List Char) :=
  splitOnCharAux sep [] l

/-- Python str.join with a single space. -/
def joinSpace : List (List Char) → List Char
  | [] => []
  | [x] => x
  | x :: y :: t => x ++ ' ' :: joinSpace (y :: t)

theorem length_dropWhile_le2 {α : Type} (p : α → Bool) :
    ∀ l : List α, (l.dropWhile p).length ≤ l.length
  | [] => Nat.le_refl 0
  | a :: t => by
    simp only [List.dropWhile]
    split
    · exact Nat.le_succ_of_le (length_dropWhile_le2 p t)
    · exact Nat.le_refl _

/-- re.split on a run of two or more spaces: the separator is the maximal
run, as the greedy regex consumes it. -/
def splitDblAux (cur : List Char) : (l : List Char) → List (List Char)
  | [] => [cur.reverse]
  | [c] => [(c :: cur).reverse]
  | c :: c2 :: t2 =>
    if c = ' ' && c2 = ' ' then
      cur.reverse :: splitDblAux [] (t2.dropWhile (fun d => d = ' '))
    else splitDblAux (c :: cur) (c2 :: t2)
termination_by l => l.length
decreasing_by
  all_goals simp_wf
  all_goals have := length_dropWhile_le2 (fun d => d = ' ') t2
  all_goals omega

def splitDblSpace (l : List Char) : List (List Char) := splitDblAux [] l

/-- RainfallAdvisoryExtractor.is_valid_location: accept everything when the
gazetteer is empty, else a direct name match or any whitespace token of the
name matching. -/
def isValidLocation (valid : List (List Char)) (loc : List Char) : Bool :=
  if valid.isEmpty then true
  else if valid.contains loc then true
  else (pySplitWs loc).any (fun tok => valid.contains tok)

def dirPrefixes : List (List Char) :=
  ["Northern".data, "Southern".data, "Eastern".data, "Western".data,
   "Central".data, "North".data, "South".data, "East".data, "West".data,
   "Greater".data]

def dirSuffixes : List (List Char) := ["Occidental".data, "Oriental".data]

mutual

/-- RainfallAdvisoryExtractor.parse_locations_text.  The fuel argument only
bounds the self-recursion depth (the source recurses on strictly shorter
word lists); every embedded call passes one unit less, and the top-level
wrapper supplies more fuel than the input can consume. -/
def parseLocationsText (valid : List (List Char)) :
    Nat → List Char → List (List Char)
  | 0, _ => []
  | fuel + 1, text =>
    if text.isEmpty || pyStrip text = "-".data || (pyStrip text).isEmpty then []
    else
      let t1 := text.map (fun c => if c = '\n' || c = '\r' then ' ' else c)
      let sections := splitDblSpace t1
      let t2 := if 1 < sections.length then sections.headD [] else t1
      let t3 := joinSpace (pySplitWs t2)
      let parts := (splitOnChar ',' t3).map pyStrip
      goParts valid fuel parts

/-- The while loop over comma parts; the source's break is a bare [] (the
locations accumulated so far stand to the left of the recursion). -/
def goParts (valid : List (List Char)) : Nat → List (List Char) → List (List Char)
  | 0, _ => []
  | _ + 1, [] => []
  | fuel + 1, part :: rest =>
    if part.isEmpty || part = "-".data || pyLower part = "and".data then
      goParts valid fuel rest
    else if startsWithL (pyLower part) "and ".data
        && !(pySplitWs (pyStrip (part.drop 4))).isEmpty then
      let words := pySplitWs (pyStrip (part.drop 4))
      match words with
      | w0 :: w1 :: wrest =>
        if dirPrefixes.contains w0
            && (valid.isEmpty || isValidLocation valid (w0 ++ ' ' :: w1)) then
          (w0 ++ ' ' :: w1) ::
            ((if !wrest.isEmpty then
                parseLocationsText valid fuel (joinSpace wrest)
              else []) ++ goParts valid fuel rest)
        else if valid.isEmpty || isValidLocation valid w0 then
          w0 :: (parseLocationsText valid fuel (joinSpace (w1 :: wrest))
            ++ goParts valid fuel rest)
        else []
      | [w0] =>
        if valid.isEmpty || isValidLocation valid w0 then
          w0 :: goParts valid fuel rest
        else []
      | [] => []
    else
      let words0 := pySplitWs part
      let words :=
        if !words0.isEmpty && pyLower (words0.headD []) = "and".data then
          words0.tail
        else words0
      if 2 < words.length then
        if !valid.isEmpty && isValidLocation valid (joinSpace words) then
          joinSpace words :: goParts valid fuel rest
        else
          let r := goWords valid fuel words
          if r.2 then r.1 else r.1 ++ goParts valid fuel rest
      else if dirPrefixes.contains part && !rest.isEmpty then
        match rest with
        | np :: rest2 =>
          if pyLower (pyStrip np) = "and".data && !rest2.isEmpty then
            let np2 := pyStrip (rest2.headD [])
            if !np2.isEmpty && np2 ≠ "-".data && pyLower np2 ≠ "and".data then
              if valid.isEmpty then
                (part ++ ' ' :: np2) :: goParts valid fuel rest2.tail
              else if isValidLocation valid (part ++ ' ' :: np2) then
                (part ++ ' ' :: np2) :: goParts valid fuel rest2.tail
              else []
            else
              if valid.isEmpty || isValidLocation valid part then
                part :: goParts valid fuel rest2
              else []
          else
            let np2 := pyStrip np
            if !np2.isEmpty && np2 ≠ "-".data && pyLower np2 ≠ "and".data then
              if valid.isEmpty then
                (part ++ ' ' :: np2) :: goParts valid fuel rest2
              else if isValidLocation valid (part ++ ' ' :: np2) then
                (part ++ ' ' :: np2) :: goParts valid fuel rest2
              else []
            else
              if valid.isEmpty || isValidLocation valid part then
                part :: goParts valid fuel rest
              else []
        | [] => []
      else
        match rest with
        | np :: rest2 =>
          if dirSuffixes.contains np then
            if valid.isEmpty then
              (part ++ ' ' :: np) :: goParts valid fuel rest2
            else if isValidLocation valid (part ++ ' ' :: np) then
              (part ++ ' ' :: np) :: goParts valid fuel rest2
            else []
          else
            if valid.isEmpty then part :: goParts valid fuel rest
            else if isValidLocation valid part then part :: goParts valid fuel rest
            else []
        | [] =>
          if valid.isEmpty then part :: goParts valid fuel rest
          else if isValidLocation valid part then part :: goParts valid fuel rest
          else []

/-- The inner word loop of the multi-word branch, returning the produced
locations and whether the source returned early (an invalid single word). -/
def goWords (valid : List (List Char)) :
    Nat → List (List Char) → List (List Char) × Bool
  | 0, _ => ([], false)
  | _ + 1, [] => ([], false)
  | fuel + 1, w0 :: wrest =>
    match wrest with
    | w1 :: wrest2 =>
      if dirPrefixes.contains w0
          && (valid.isEmpty || isValidLocation valid (w0 ++ ' ' :: w1)) then
        let r := goWords valid fuel wrest2
        ((w0 ++ ' ' :: w1) :: r.1, r.2)
      else if dirSuffixes.contains w1
          && (valid.isEmpty || isValidLocation valid (w0 ++ ' ' :: w1)) then
        let r := goWords valid fuel wrest2
        ((w0 ++ ' ' :: w1) :: r.1, r.2)
      else if !valid.isEmpty then
        if isValidLocation valid w0 then
          let r := goWords valid fuel wrest
          (w0 :: r.1, r.2)
        else (parseLocationsText valid fuel (joinSpace wrest), true)
      else
        let r := goWords valid fuel wrest
        (w0 :: r.1, r.2)
    | [] =>
      if !valid.isEmpty then
        if isValidLocation valid w0 then ([w0], false)
        else ([], true)
      else ([w0], false)

end

/-- parse_locations_text with enough fuel for its input. -/
def parseLocationsTextTop (valid : List (List Char)) (text : List Char) :
    List (List Char) :=
  parseLocationsText valid (text.length + 2) text

/-- C4: with a gazetteer name set containing Batanes, Cagayan and Isabela
but not Xyzinvalid, the tokenizer returns exactly Batanes and Cagayan: at
the first comma token failing validation it stops entirely and the later
valid Isabela is discarded. -/
theorem c4_tokenizer_strict_stop (valid : List (List Char))
    (hB : valid.contains "Batanes".data = true)
    (hC : valid.contains "Cagayan".data = true)
    (hI : valid.contains "Isabela".data = true)
    (hX : valid.contains "Xyzinvalid".data = false) :
    parseLocationsTextTop valid "Batanes, Cagayan, Xyzinvalid, Isabela".data
      = ["Batanes".data, "Cagayan".data] := by
  have hne : valid.isEmpty = false := by
    cases valid with
    | nil => simp [List.contains] at hB
    | cons a t => rfl
  have hB2 : "Batanes".data ∈ valid := by simpa using hB
  have hC2 : "Cagayan".data ∈ valid := by simpa using hC
  have hX2 : "Xyzinvalid".data ∉ valid := by simpa using hX
  simp +decide [parseLocationsTextTop, parseLocationsText, goParts,
    isValidLocation, splitDblSpace, splitDblAux, pySplitWs, pySplitWsAux,
    splitOnChar, splitOnCharAux, joinSpace, pyStrip, isWs, hB2, hC2, hX2, hne]

/-- C4 witness: the strict stop on the concrete three-name gazetteer. -/
theorem c4_tokenizer_strict_stop_witness :
    parseLocationsTextTop ["Batanes".data, "Cagayan".data, "Isabela".data]
        "Batanes, Cagayan, Xyzinvalid, Isabela".data
      = ["Batanes".data, "Cagayan".data] :=
  c4_tokenizer_strict_stop ["Batanes".data, "Cagayan".data, "Isabela".data]
    (by decide) (by decide) (by decide) (by decide)

/-- A hand-compiled rainfall intensity regex: lowercase literal words joined
by one-or-more whitespace, an optional trailing s on the last word, and an
optional negative lookahead of whitespace plus one of the word sequences. -/
structure RainPat where
  words : List (List Char)
  optS : Bool
  negLook : List (List (List Char))

/-- Match a word sequence joined by one-or-more whitespace (the first word
anchored at the head), case-insensitively; returns the suffix after it. -/
def matchWordsFrom (first : Bool) : List (List Char) → List Char →
    Option (List Char)
  | [], l => some l
  | w :: ws, l =>
    if first then
      if startsWithCI l w then matchWordsFrom false ws (l.drop w.length)
      else none
    else
      if (l.takeWhile isWs).isEmpty then none
      else
        let l2 := l.dropWhile isWs
        if startsWithCI l2 w then matchWordsFrom false ws (l2.drop w.length)
        else none

/-- Does the negative-lookahead body (whitespace then one alternative) match
at the head of the suffix? -/
def lookaheadMatches (alts : List (List (List Char))) (rest : List Char) :
    Bool :=
  if (rest.takeWhile isWs).isEmpty then false
  else alts.any (fun alt => (matchWordsFrom true alt (rest.dropWhile isWs)).isSome)

/-- Match a rainfall pattern at the head of the text, with the regex
backtracking on the optional s: the greedy s is kept only when the negative
lookahead then fails, else the match retries without it. -/
def patMatchAt (p : RainPat) (l : List Char) : Option (List Char) :=
  match matchWordsFrom true p.words l with
  | none => none
  | some rest =>
    let tryAt : List Char → Option (List Char) := fun r =>
      if p.negLook.isEmpty then some r
      else if !(lookaheadMatches p.negLook r) then some r
      else none
    if p.optS then
      match rest with
      | c :: t =>
        if c.toLower = 's' then
          match tryAt t with
          | some t2 => some t2
          | none => tryAt rest
        else tryAt rest
      | [] => tryAt rest
    else tryAt rest

/-- Match of the over-keyword regex (whitespace, then over or in or
affecting, then whitespace, all greedy) at the head; returns its length. -/
def overMatchAtHead (l : List Char) : Option Nat :=
  let w := l.takeWhile isWs
  if w.isEmpty then none
  else
    let r := l.dropWhile isWs
    let tryAlt : List Char → Option Nat := fun alt =>
      if startsWithCI r alt then
        let w2 := (r.drop alt.length).takeWhile isWs
        if w2.isEmpty then none else some (w.length + alt.length + w2.length)
      else none
    match tryAlt "over".data with
    | some e => some e
    | none =>
      match tryAlt "in".data with
      | some e => some e
      | none => tryAlt "affecting".data

/-- Leftmost over-keyword match in the text; returns its end index. -/
def findOver : List Char → Option Nat
  | [] => none
  | c :: t =>
    match overMatchAtHead (c :: t) with
    | some e => some e
    | none => (findOver t).map (· + 1)

/-- The finditer walk for one pattern: at the first occurrence followed by
an over-keyword within the next 300 characters, return the suffix from just
after that keyword; occurrences without one are skipped; fuel bounds the
scan and the input length plus one always suffices. -/
def scanPat (p : RainPat) : Nat → List Char → Option (List Char)
  | 0, _ => none
  | fuel + 1, l =>
    match patMatchAt p l with
    | some rest =>
      match findOver (rest.take 300) with
      | some e => some (rest.drop e)
      | none => scanPat p fuel rest
    | none =>
      match l with
      | [] => none
      | _ :: t => scanPat p fuel t

/-- Truncate the raw location suffix: cut at the first period (or 150
characters), strip, keep the first line, strip. -/
def cleanLocText (l : List Char) : List Char :=
  let l1 := if l.contains '.' then l.takeWhile (fun c => c ≠ '.') else l.take 150
  pyStrip ((splitOnChar '\n' (pyStrip l1)).headD [])

/-- RainfallWarningExtractor.INTENSITY_PATTERNS, hand-compiled per level. -/
def rainPats1 : List RainPat :=
  [⟨["moderate".data, "to".data, "heavy".data, "with".data, "at".data,
     "times".data, "intense".data], false, []⟩,
   ⟨["moderate".data, "to".data, "heavy".data, "with".data, "at".data,
     "times".data, "very".data, "heavy".data], false, []⟩,
   ⟨["moderate".data, "to".data, "heavy".data, "with".data, "isolated".data,
     "to".data, "scattered".data, "heavy".data], false, []⟩,
   ⟨["moderate".data, "to".data, "heavy".data, "rain".data], true,
    [["over".data], ["are".data], ["affecting".data], ["like".data]]⟩]

def rainPats2 : List RainPat :=
  [⟨["light".data, "to".data, "moderate".data, "with".data, "at".data,
     "times".data, "heavy".data], false, []⟩,
   ⟨["light".data, "to".data, "moderate".data, "rain".data], true,
    [["over".data], ["are".data], ["affecting".data], ["like".data]]⟩]

def rainPats3 : List RainPat :=
  [⟨["slight".data, "to".data, "light".data, "rain".data], true, []⟩,
   ⟨["light".data, "rain".data], true, [["to".data, "moderate".data]]⟩]

/-- The per-level pattern loop: the first pattern whose scan finds a
keyword-bearing occurrence supplies the location text for the level. -/
def levelLocText (sec : List Char) : List RainPat → Option (List Char)
  | [] => none
  | p :: rest =>
    match scanPat p (sec.length + 1) sec with
    | some raw => some (cleanLocText raw)
    | none => levelLocText sec rest

/-- _split_locations_respecting_parentheses: comma split at parenthesis
depth zero, stripping chunks and dropping empty ones. -/
def splitParensAux (cur : List Char) (depth : Int) : List Char →
    List (List Char)
  | [] => if (pyStrip cur.reverse).isEmpty then [] else [pyStrip cur.reverse]
  | c :: t =>
    if c = '(' then splitParensAux (c :: cur) (depth + 1) t
    else if c = ')' then splitParensAux (c :: cur) (depth - 1) t
    else if c = ',' && depth = 0 then
      if (pyStrip cur.reverse).isEmpty then splitParensAux [] 0 t
      else pyStrip cur.reverse :: splitParensAux [] 0 t
    else splitParensAux (c :: cur) depth t

def splitLocParens (l : List Char) : List (List Char) := splitParensAux [] 0 l

/-- The ordered alternatives of the leading-qualifier regex. -/
def locQualifierAlts : List (List Char) :=
  ["the".data, "a".data, "an".data, "and".data, "or".data, "rest of".data,
   "portion of".data, "northern".data, "southern".data, "eastern".data,
   "western".data, "central".data, "northern and central".data,
   "eastern and western".data, "island of".data, "islands of".data,
   "province of".data, "city of".data, "municipality of".data,
   "municipalities of".data, "barangay of".data, "barangays of".data]

/-- re.sub of the anchored qualifier alternation followed by whitespace:
the first alternative that fits (with at least one whitespace after it) is
removed together with the whitespace run. -/
def stripLeadQualifier (s : List Char) : List Char :=
  match locQualifierAlts.find? (fun p =>
      startsWithCI s p && !((s.drop p.length).takeWhile isWs).isEmpty) with
  | some p => (s.drop p.length).dropWhile isWs
  | none => s

/-- One attempt of the parenthetical-remover pattern (optional whitespace,
an opening parenthesis, no closing parenthesis inside, a closing one). -/
def matchParenAt (s : List Char) : Option (List Char) :=
  let r := s.dropWhile isWs
  match r with
  | '(' :: t =>
    match t.drop (t.takeWhile (fun c => c ≠ ')')).length with
    | ')' :: rest => some rest
    | _ => none
  | _ => none

def removeParensAux : Nat → List Char → List Char
  | 0, l => l
  | _, [] => []
  | fuel + 1, c :: t =>
    match matchParenAt (c :: t) with
    | some rest => removeParensAux fuel rest
    | none => c :: removeParensAux fuel t

def removeParens (s : List Char) : List Char := removeParensAux s.length s

/-- The part of a location entry before its first parenthetical. -/
def mainLocOf (part : List Char) : List Char :=
  pyStrip (part.takeWhile (fun c => c ≠ '('))

def vagueWords : List (List Char) :=
  ["most of".data, "northeastern".data, "northwestern".data,
   "southeastern".data, "southwestern".data]

def regionWords : List (List Char) :=
  ["luzon".data, "visayas".data, "mindanao".data]

/-- The validation loop of _parse_locations_with_islands: per comma entry,
gazetteer lookup of the qualifier-stripped main location, fallbacks on the
raw main location, then the rest-of and vague-region special cases. -/
def validatedLocs (rows : List GazRow) : List (List Char) →
    List (List Char × List Char)
  | [] => []
  | part0 :: rest =>
    let part := pyStrip part0
    if part.isEmpty || part = "-".data then validatedLocs rows rest
    else
      let mainLoc := mainLocOf part
      let lookFor := pyStrip (stripLeadQualifier mainLoc)
      let lookClean := pyStrip (removeParens lookFor)
      if lookClean.isEmpty then validatedLocs rows rest
      else
        let island1 := findIslandGroup rows lookClean
        let island2 :=
          match island1 with
          | some g => some g
          | none => findIslandGroup rows mainLoc
        let island3 :=
          match island2 with
          | some g => some g
          | none =>
            if containsSub (pyLower mainLoc) "rest".data then some "Other".data
            else none
        let island4 :=
          match island3 with
          | some g => some g
          | none =>
            if (vagueWords.any (fun v => containsSub (pyLower mainLoc) v))
                && (regionWords.any (fun r => containsSub (pyLower mainLoc) r))
            then some "Other".data
            else none
        match island4 with
        | some g => (part, g) :: validatedLocs rows rest
        | none => validatedLocs rows rest

def joinCommaSpace : List (List Char) → List Char
  | [] => []
  | [x] => x
  | x :: y :: t => x ++ ',' :: ' ' :: joinCommaSpace (y :: t)

/-- Rebuild the four-key record from the validated entries: a region key is
set exactly when at least one entry resolved to it, to the comma-joined
entries in input order (the source's primary-island pass and the pass over
the remaining islands write exactly these values). -/
def islandsRecOf (validated : List (List Char × List Char)) : IslandRec :=
  let valOf := fun (k : List Char) =>
    let locs := (validated.filter (fun pr => pr.2 = k)).map Prod.fst
    if locs.isEmpty then none else some (joinCommaSpace locs)
  [("Luzon", valOf "Luzon".data), ("Visayas", valOf "Visayas".data),
   ("Mindanao", valOf "Mindanao".data), ("Other", valOf "Other".data)]

/-- RainfallWarningExtractor._parse_locations_with_islands (the unused
full-section parameter of the source is dropped). -/
def parseLocationsWithIslands (rows : List GazRow) (locationText : List Char) :
    IslandRec :=
  if locationText.isEmpty || (pyStrip locationText).isEmpty then nullSignalRec
  else
    let lt := pyStrip (collapseWs locationText)
    let validated := validatedLocs rows (splitLocParens lt)
    if validated.isEmpty then
      [("Luzon", some lt), ("Visayas", none), ("Mindanao", none),
       ("Other", none)]
    else islandsRecOf validated

/-- One level of _parse_rainfall_section: the first keyword-bearing
occurrence of the level's patterns populates the record; no occurrence, or
an empty location text, leaves it all null. -/
def levelRecord (rows : List GazRow) (sec : List Char)
    (pats : List RainPat) : IslandRec :=
  match levelLocText sec pats with
  | none => nullSignalRec
  | some lt => if lt.isEmpty then nullSignalRec
      else parseLocationsWithIslands rows lt

/-- RainfallWarningExtractor._parse_rainfall_section: levels 1 to 3 in
order, each populated independently from its first matching occurrence. -/
def parseRainfallSection (rows : List GazRow) (sec : List Char) :
    List (Nat × IslandRec) :=
  if sec.isEmpty || (pyStrip sec).isEmpty then
    [(1, nullSignalRec), (2, nullSignalRec), (3, nullSignalRec)]
  else
    [(1, levelRecord rows sec rainPats1),
     (2, levelRecord rows sec rainPats2),
     (3, levelRecord rows sec rainPats3)]

/-- A two-entry gazetteer for the rainfall scenario. -/
def c8Rows : List GazRow :=
  [⟨"Batanes".data, "Province".data, "Luzon".data⟩,
   ⟨"Cebu".data, "Province".data, "Visayas".data⟩]

/-- A section with two separate level-1 clauses: over Batanes, then over
Cebu. -/
def c8Section : List Char :=
  ("Moderate to heavy with at times intense rainfall over Batanes. " ++
   "Moderate to heavy with at times intense rainfall over Cebu.").data

/-- C8: intensity patterns are tried in level order and, per level, only
the first keyword-bearing occurrence is used: on the two-clause section,
level 1 is populated from Batanes only (Cebu, the second occurrence,
appears nowhere) and levels 2 and 3 stay null; and in general, once the
first occurrence of a pattern carries an over-keyword within 300
characters, the scan returns its location text and never reaches later
occurrences. -/
theorem c8_rainfall_first_match :
    parseRainfallSection c8Rows c8Section
      = [(1, [("Luzon", some "Batanes".data), ("Visayas", none),
              ("Mindanao", none), ("Other", none)]),
         (2, nullSignalRec), (3, nullSignalRec)] ∧
    (∀ (p : RainPat) (fuel : Nat) (l rest : List Char) (e : Nat),
      patMatchAt p l = some rest →
      findOver (rest.take 300) = some e →
      scanPat p (fuel + 1) l = some (rest.drop e)) := by
  constructor
  · decide
  · intro p fuel l rest e h1 h2
    simp [scanPat, h1, h2]

/-- C8 witness: the first-occurrence short-circuit at the concrete first
level-1 pattern and section. -/
theorem c8_rainfall_first_match_witness :
    scanPat (rainPats1.headD ⟨[], false, []⟩) (0 + 1) c8Section
      = some ((c8Section.drop 39).drop 15) :=
  c8_rainfall_first_match.2 (rainPats1.headD ⟨[], false, []⟩) 0 c8Section
    (c8Section.drop 39) 15 (by decide) (by decide)
